import Mathlib

/-!
Verification of the metadata enrichment and reconciliation engine of the
hecat catalog generator, embedded from `hecat/processors/software_metadata.py`,
`hecat/processors/github_metadata.py` and `hecat/utils.py`.

Modelling conventions:
* Python strings are `List Char`; `str.casefold` on the ASCII identifiers the
  code handles is character-wise lowercasing; Python string comparison is
  lexicographic comparison of code points.
* The anchored URL regexes only use `[^\/]+` segments, so a match is exactly a
  constraint on the `'/'`-split of the text after the host prefix; the
  extractors below are embedded through that characterisation.
* Commit-history dicts are association lists in insertion order.
* The network layer is a scripted list of responses consumed one per POST;
  sleeps, requests and appended error messages are recorded as explicit traces.
-/

def strL (s : String) : List Char := s.data

/-- `str.casefold` as used on ASCII repo identifiers: lowercase each char. -/
def casefold (s : List Char) : List Char := s.map Char.toLower

/-- Python string `<=` on `"YYYY-MM"` keys: lexicographic on code points. -/
def strLeL : List Char → List Char → Bool
  | [], _ => true
  | _ :: _, [] => false
  | a :: as, b :: bs => if a = b then strLeL as bs else decide (a < b)

theorem strLeL_total (a b : List Char) : strLeL a b = true ∨ strLeL b a = true := by
  induction a generalizing b with
  | nil => left; rfl
  | cons x xs ih =>
    cases b with
    | nil => right; rfl
    | cons y ys =>
      by_cases hxy : x = y
      · subst hxy
        rcases ih ys with h | h
        · left; simp [strLeL, h]
        · right; simp [strLeL, h]
      · have hne : y ≠ x := fun hh => hxy hh.symm
        rcases lt_or_gt_of_ne hxy with h | h
        · left; simp [strLeL, hxy, h]
        · right; simp [strLeL, hne, h]

theorem strLeL_trans (a b c : List Char) (hab : strLeL a b = true) (hbc : strLeL b c = true) :
    strLeL a c = true := by
  induction a generalizing b c with
  | nil => rfl
  | cons x xs ih =>
    cases b with
    | nil => simp [strLeL] at hab
    | cons y ys =>
      cases c with
      | nil => simp [strLeL] at hbc
      | cons z zs =>
        by_cases hxy : x = y <;> by_cases hyz : y = z
        · subst hxy; subst hyz
          simp only [strLeL, if_pos rfl] at hab hbc ⊢
          exact ih ys zs hab hbc
        · subst hxy
          simp only [strLeL, if_pos rfl] at hab
          simp only [strLeL, if_neg hyz] at hbc
          simp [strLeL, hyz, hbc]
        · subst hyz
          simp only [strLeL, if_neg hxy] at hab
          simp [strLeL, hxy, hab]
        · simp only [strLeL, if_neg hxy, decide_eq_true_eq] at hab
          simp only [strLeL, if_neg hyz, decide_eq_true_eq] at hbc
          have hxz : x < z := lt_trans hab hbc
          have hne : x ≠ z := ne_of_lt hxz
          simp [strLeL, hne, hxz]

/-- Consume an expected literal from the front of a string; `none` on mismatch.
Used to embed the literal scheme/host part of the anchored regexes. -/
def dropPrefixQ : List Char → List Char → Option (List Char)
  | [], s => some s
  | _ :: _, [] => none
  | p :: ps, c :: cs => if c = p then dropPrefixQ ps cs else none

theorem dropPrefixQ_append (p s : List Char) : dropPrefixQ p (p ++ s) = some s := by
  induction p with
  | nil => rfl
  | cons c cs ih => simp [dropPrefixQ, ih]

/-- `str.split('/')` semantics: the `[^\/]+` groups of the URL regexes cannot
contain `'/'`, so a regex match is exactly a constraint on this split. -/
def splitSlash : List Char → List (List Char)
  | [] => [[]]
  | c :: cs =>
    if c = '/' then [] :: splitSlash cs
    else
      match splitSlash cs with
      | s :: rest => (c :: s) :: rest
      | [] => [[c]]

theorem splitSlash_append_left (o t : List Char) (s : List Char) (rest : List (List Char))
    (ho : '/' ∉ o) (ht : splitSlash t = s :: rest) :
    splitSlash (o ++ t) = (o ++ s) :: rest := by
  induction o with
  | nil => simpa using ht
  | cons c cs ih =>
    have hc : c ≠ '/' := fun h => ho (h ▸ List.mem_cons_self c cs)
    have hcs : '/' ∉ cs := fun h => ho (List.mem_cons_of_mem c h)
    have ih' : splitSlash (cs.append t) = (cs ++ s) :: rest := ih hcs
    simp only [List.cons_append, splitSlash, if_neg hc, ih']

theorem splitSlash_noslash (r : List Char) (hr : '/' ∉ r) : splitSlash r = [r] := by
  have := splitSlash_append_left r [] [] [] hr rfl
  simpa using this

theorem splitSlash_slash_cons (t : List Char) : splitSlash ('/' :: t) = [] :: splitSlash t := by
  simp [splitSlash]

/-- `software_metadata.extract_github_repo_identifier` (and the identical
`github_metadata.extract_repo_identifier`): the anchored regex
`^https?:\/\/github\.com\/([^\/]+)\/([^\/]+)\/?$`.  After the scheme and host,
the remainder must split on `'/'` into exactly two nonempty segments, with one
optional trailing slash; the result is `owner/repo` as captured. -/
def githubFromTail (tail : List Char) : Option (List Char) :=
  match splitSlash tail with
  | [a, b] => if a ≠ [] ∧ b ≠ [] then some (a ++ '/' :: b) else none
  | [a, b, c] => if a ≠ [] ∧ b ≠ [] ∧ c = [] then some (a ++ '/' :: b) else none
  | _ => none

def extract_github_repo_identifier (url : List Char) : Option (List Char) :=
  match dropPrefixQ (strL "https://") url with
  | some rest =>
    match dropPrefixQ (strL "github.com/") rest with
    | some tail => githubFromTail tail
    | none => none
  | none =>
    match dropPrefixQ (strL "http://") url with
    | some rest =>
      match dropPrefixQ (strL "github.com/") rest with
      | some tail => githubFromTail tail
      | none => none
    | none => none

/-- Reassemble split segments with `'/'` (the text captured by the GitLab
regex group `[^\/]+(?:\/[^\/]+)*`). -/
def joinSlash : List (List Char) → List Char
  | [] => []
  | [s] => s
  | s :: ss => s ++ '/' :: joinSlash ss

/-- `software_metadata.extract_gitlab_repo_identifier`: the anchored regex
`^https?:\/\/gitlab\.com\/([^\/]+(?:\/[^\/]+)*)\/?$`.  After scheme and host,
the remainder minus one optional trailing slash must be a nonempty sequence of
nonempty slash-free segments; the captured group is that remainder. -/
def gitlabFromTail (tail : List Char) : Option (List Char) :=
  let segs := splitSlash tail
  let core := if segs.getLast? = some [] then segs.dropLast else segs
  if core ≠ [] ∧ core.all (fun s => !s.isEmpty) then some (joinSlash core) else none

def extract_gitlab_repo_identifier (url : List Char) : Option (List Char) :=
  match dropPrefixQ (strL "https://") url with
  | some rest =>
    match dropPrefixQ (strL "gitlab.com/") rest with
    | some tail => gitlabFromTail tail
    | none => none
  | none =>
    match dropPrefixQ (strL "http://") url with
    | some rest =>
      match dropPrefixQ (strL "gitlab.com/") rest with
      | some tail => gitlabFromTail tail
      | none => none
    | none => none

/-- `software_metadata.generate_gitlab_alias`: replace every character outside
`[a-zA-Z0-9_]` by `'_'`; prepend `'p'` if the result is empty or starts with a
digit. -/
def sanitizeAliasChar (c : Char) : Char :=
  if ('a' ≤ c ∧ c ≤ 'z') ∨ ('A' ≤ c ∧ c ≤ 'Z') ∨ ('0' ≤ c ∧ c ≤ '9') ∨ c = '_' then c else '_'

def generate_gitlab_alias (repoPath : List Char) : List Char :=
  let a := repoPath.map sanitizeAliasChar
  match a with
  | [] => ['p']
  | c :: _ => if '0' ≤ c ∧ c ≤ '9' then 'p' :: a else a

/-- `utils.to_kebab_case`: translate `' '`/`':'` to `'-'`, delete
`'('`, `')'`, `'&'`, `'/'`, `','`, `'*'`, then lowercase. -/
def kebabTranslate (c : Char) : List Char :=
  if c = ' ' ∨ c = ':' then ['-']
  else if c = '(' ∨ c = ')' ∨ c = '&' ∨ c = '/' ∨ c = ',' ∨ c = '*' then []
  else [c]

def to_kebab_case (s : List Char) : List Char :=
  (s.flatMap kebabTranslate).map Char.toLower

theorem extract_github_append (x : List Char) :
    extract_github_repo_identifier (strL "https://github.com/" ++ x) = githubFromTail x := by
  have h1 : strL "https://github.com/" ++ x = strL "https://" ++ (strL "github.com/" ++ x) := by
    rw [← List.append_assoc]; rfl
  rw [h1]
  simp only [extract_github_repo_identifier, dropPrefixQ_append]

theorem extract_gitlab_append (x : List Char) :
    extract_gitlab_repo_identifier (strL "https://gitlab.com/" ++ x) = gitlabFromTail x := by
  have h1 : strL "https://gitlab.com/" ++ x = strL "https://" ++ (strL "gitlab.com/" ++ x) := by
    rw [← List.append_assoc]; rfl
  rw [h1]
  simp only [extract_gitlab_repo_identifier, dropPrefixQ_append]

theorem githubFromTail_two_segments (o r : List Char) (ho : o ≠ []) (hr : r ≠ [])
    (hos : '/' ∉ o) (hrs : '/' ∉ r) :
    githubFromTail (o ++ '/' :: r) = some (o ++ '/' :: r) := by
  have hsp : splitSlash (o ++ '/' :: r) = [o, r] := by
    have h2 : splitSlash ('/' :: r) = [] :: [r] := by
      rw [splitSlash_slash_cons, splitSlash_noslash r hrs]
    have := splitSlash_append_left o ('/' :: r) [] [r] hos h2
    simpa using this
  simp [githubFromTail, hsp, ho, hr]

theorem githubFromTail_trailing_slash (o r : List Char) (ho : o ≠ []) (hr : r ≠ [])
    (hos : '/' ∉ o) (hrs : '/' ∉ r) :
    githubFromTail (o ++ '/' :: (r ++ ['/'])) = some (o ++ '/' :: r) := by
  have hr' : splitSlash (r ++ ['/']) = [r, []] := by
    have h0 : splitSlash ['/'] = [[], []] := rfl
    have := splitSlash_append_left r ['/'] [] [[]] hrs h0
    simpa using this
  have hsp : splitSlash (o ++ '/' :: (r ++ ['/'])) = [o, r, []] := by
    have h2 : splitSlash ('/' :: (r ++ ['/'])) = [] :: [r, []] := by
      rw [splitSlash_slash_cons, hr']
    have := splitSlash_append_left o ('/' :: (r ++ ['/'])) [] [r, []] hos h2
    simpa using this
  simp [githubFromTail, hsp, ho, hr]

theorem githubFromTail_extra_segment (o r s : List Char) (hos : '/' ∉ o) (hrs : '/' ∉ r)
    (hs : s ≠ []) (hss : '/' ∉ s) :
    githubFromTail (o ++ '/' :: (r ++ '/' :: s)) = none := by
  have hr' : splitSlash (r ++ '/' :: s) = [r, s] := by
    have h0 : splitSlash ('/' :: s) = [] :: [s] := by
      rw [splitSlash_slash_cons, splitSlash_noslash s hss]
    have := splitSlash_append_left r ('/' :: s) [] [s] hrs h0
    simpa using this
  have hsp : splitSlash (o ++ '/' :: (r ++ '/' :: s)) = [o, r, s] := by
    have h2 : splitSlash ('/' :: (r ++ '/' :: s)) = [] :: [r, s] := by
      rw [splitSlash_slash_cons, hr']
    have := splitSlash_append_left o ('/' :: (r ++ '/' :: s)) [] [r, s] hos h2
    simpa using this
  simp [githubFromTail, hsp, hs]

/-- C6 counterexample: the claim says a URL carrying a query string yields
null, but the segment pattern `[^\/]+` accepts `'?'`, so
`extract_github_repo_identifier` returns a non-null identifier that contains
the query string. -/
theorem C6_counterexample_query_string :
    extract_github_repo_identifier (strL "https://github.com/foo/bar?tab=readme") ≠ none
    ∧ extract_github_repo_identifier (strL "https://github.com/foo/bar?tab=readme")
        = some (strL "foo/bar?tab=readme") := by
  constructor
  · decide
  · decide

/-- C6 (amended): for every URL of the form
`https://github.com/owner/repo` (optionally with one trailing slash, `owner`
and `repo` nonempty and slash-free) extraction returns the `owner/repo`
identifier; URLs with an extra path segment or a non-GitHub host yield `none`
(and the function is total, so it never raises); query strings are *not*
rejected — they are captured into the final segment; identifier equality is
case- and trailing-slash-insensitive only after case-folding, as used by the
engine's comparisons. -/
theorem C6_extract_repo_identifier_amended
    (o r s rest : List Char)
    (ho : o ≠ []) (hr : r ≠ []) (hos : '/' ∉ o) (hrs : '/' ∉ r)
    (hs : s ≠ []) (hss : '/' ∉ s) :
    extract_github_repo_identifier (strL "https://github.com/" ++ (o ++ '/' :: r))
      = some (o ++ '/' :: r)
    ∧ extract_github_repo_identifier (strL "https://github.com/" ++ (o ++ '/' :: (r ++ ['/'])))
      = some (o ++ '/' :: r)
    ∧ extract_github_repo_identifier (strL "https://github.com/" ++ (o ++ '/' :: (r ++ '/' :: s)))
      = none
    ∧ extract_github_repo_identifier (strL "https://gitlab.com/" ++ rest) = none
    ∧ casefold ((extract_github_repo_identifier (strL "https://github.com/Foo/Bar/")).getD [])
      = casefold ((extract_github_repo_identifier (strL "https://github.com/foo/bar")).getD []) := by
  refine ⟨?_, ?_, ?_, ?_, ?_⟩
  · rw [extract_github_append]
    exact githubFromTail_two_segments o r ho hr hos hrs
  · rw [extract_github_append]
    exact githubFromTail_trailing_slash o r ho hr hos hrs
  · rw [extract_github_append]
    exact githubFromTail_extra_segment o r s hos hrs hs hss
  · rfl
  · decide

/-- Witness for C6 (amended) at `owner := "foo"`, `repo := "bar"`,
`extra := "baz"`, wrong-host remainder `"x/y"`. -/
theorem C6_extract_repo_identifier_amended_witness :
    (strL "foo" ≠ [] ∧ strL "bar" ≠ [] ∧ '/' ∉ strL "foo" ∧ '/' ∉ strL "bar"
      ∧ strL "baz" ≠ [] ∧ '/' ∉ strL "baz")
    ∧ (extract_github_repo_identifier (strL "https://github.com/" ++ (strL "foo" ++ '/' :: strL "bar"))
        = some (strL "foo" ++ '/' :: strL "bar")
      ∧ extract_github_repo_identifier
          (strL "https://github.com/" ++ (strL "foo" ++ '/' :: (strL "bar" ++ ['/'])))
        = some (strL "foo" ++ '/' :: strL "bar")
      ∧ extract_github_repo_identifier
          (strL "https://github.com/" ++ (strL "foo" ++ '/' :: (strL "bar" ++ '/' :: strL "baz")))
        = none
      ∧ extract_github_repo_identifier (strL "https://gitlab.com/" ++ strL "x/y") = none
      ∧ casefold ((extract_github_repo_identifier (strL "https://github.com/Foo/Bar/")).getD [])
        = casefold ((extract_github_repo_identifier (strL "https://github.com/foo/bar")).getD [])) :=
  ⟨⟨by decide, by decide, by decide, by decide, by decide, by decide⟩,
    C6_extract_repo_identifier_amended (strL "foo") (strL "bar") (strL "baz") (strL "x/y")
      (by decide) (by decide) (by decide) (by decide) (by decide) (by decide)⟩

/-- The `repo_to_alias` map built per batch in
`software_metadata.process_gitlab_batch`. -/
def repo_to_alias (batch : List (List Char)) : List (List Char × List Char) :=
  batch.map (fun rp => (rp, generate_gitlab_alias rp))

/-- `response_data.get(alias)`: the response slot a repo path is reconciled
from in `process_gitlab_batch`. -/
def responseSlot (responseData : List Char → Option Nat) (rp : List Char) : Option Nat :=
  responseData (generate_gitlab_alias rp)

/-- C10: `generate_gitlab_alias` is not injective — the distinct repo paths
`foo/bar` and `foo_bar` share the alias `foo_bar`, so in a batch containing
both, `repo_to_alias` sends both to one alias and both entries are reconciled
from the same response slot. -/
theorem C10_generate_gitlab_alias_not_injective :
    strL "foo/bar" ≠ strL "foo_bar"
    ∧ generate_gitlab_alias (strL "foo/bar") = generate_gitlab_alias (strL "foo_bar")
    ∧ repo_to_alias [strL "foo/bar", strL "foo_bar"]
        = [(strL "foo/bar", strL "foo_bar"), (strL "foo_bar", strL "foo_bar")]
    ∧ ∀ responseData : List Char → Option Nat,
        responseSlot responseData (strL "foo/bar") = responseSlot responseData (strL "foo_bar") := by
  refine ⟨by decide, by decide, by decide, ?_⟩
  intro rd
  show rd (generate_gitlab_alias (strL "foo/bar")) = rd (generate_gitlab_alias (strL "foo_bar"))
  rw [(by decide : generate_gitlab_alias (strL "foo/bar") = generate_gitlab_alias (strL "foo_bar"))]

/-- A software entry as the reconciliation code sees it: only
`source_code_url` is consulted. -/
structure GitlabProject where
  source_code_url : List Char
deriving DecidableEq

/-- The software-entry lookup in `process_gitlab_batch`: the first project
whose extracted, case-folded identifier equals the (already case-folded)
batch repo path. -/
def findSoftwareGitlab (projects : List GitlabProject) (repoPath : List Char) :
    Option GitlabProject :=
  projects.find? (fun p =>
    match extract_gitlab_repo_identifier p.source_code_url with
    | some ident => decide (casefold ident = repoPath)
    | none => false)

/-- The `found_repos` set accumulated by the `for repo_path in batch` loop of
`process_gitlab_batch`: a repo path is marked found iff its alias is present
in the response data and a matching software entry exists. -/
def gitlabFoundRepos (batch : List (List Char)) (responseData : List Char → Option Nat)
    (projects : List GitlabProject) : List (List Char) :=
  batch.filter (fun rp =>
    (responseData (generate_gitlab_alias rp)).isSome
      && (findSoftwareGitlab projects rp).isSome)

/-- Errors recorded by the reconciliation code. -/
inductive RecErr
  | noSoftwareEntry (repoPath : List Char)
  | notFound (url : List Char)
deriving DecidableEq

/-- `find_missing_repos`: the URL reported for a missing identifier — the
originating project's `source_code_url` when one matches, else
`base_url/identifier`. -/
def missingUrlFor (projects : List GitlabProject) (extract : List Char → Option (List Char))
    (baseUrl missingRepo : List Char) : List Char :=
  match projects.find? (fun p =>
      match extract p.source_code_url with
      | some ident => decide (casefold ident = missingRepo)
      | none => false) with
  | some p => p.source_code_url
  | none => baseUrl ++ '/' :: missingRepo

/-- `batch_repos - found_repos` in `find_missing_repos` (set difference of the
batch against the found set). -/
def missingRepos (batch found : List (List Char)) : List (List Char) :=
  batch.dedup.filter (fun r => decide (¬ r ∈ found))

/-- `software_metadata.find_missing_repos`: one
`Repository not found in search results` error per identifier of the batch
that is not in `found_repos`. -/
def find_missing_repos (batch found : List (List Char)) (projects : List GitlabProject)
    (extract : List Char → Option (List Char)) (baseUrl : List Char) : List RecErr :=
  (missingRepos batch found).map
    (fun r => RecErr.notFound (missingUrlFor projects extract baseUrl r))

/-- The error stream of the reconciliation part of `process_gitlab_batch` on a
successful (non-split) response: per-repo `could not find software entry`
errors from the loop, then the missing-repository errors. -/
def process_gitlab_batch_errors (batch : List (List Char))
    (responseData : List Char → Option Nat) (projects : List GitlabProject) : List RecErr :=
  (batch.filter (fun rp =>
      (responseData (generate_gitlab_alias rp)).isSome
        && !(findSoftwareGitlab projects rp).isSome)).map RecErr.noSoftwareEntry
  ++ find_missing_repos batch (gitlabFoundRepos batch responseData projects) projects
      extract_gitlab_repo_identifier (strL "https://gitlab.com")

/-- C2: for every batch and successful response, the found identifiers and the
identifiers reported as not found are disjoint and their union is exactly the
batch's identifier set; concretely, for a batch of four identifiers whose
response carries matching entries for only the first three, exactly one
`Repository not found in search results` error is recorded, naming the fourth
identifier's original `source_code_url`. -/
theorem C2_reconciliation_diff_completeness :
    (∀ (batch : List (List Char)) (responseData : List Char → Option Nat)
        (projects : List GitlabProject) (x : List Char),
      ((x ∈ gitlabFoundRepos batch responseData projects
          ∨ x ∈ missingRepos batch (gitlabFoundRepos batch responseData projects))
        ↔ x ∈ batch)
      ∧ ¬(x ∈ gitlabFoundRepos batch responseData projects
          ∧ x ∈ missingRepos batch (gitlabFoundRepos batch responseData projects)))
    ∧ (let batch4 : List (List Char) :=
        [strL "org/r1", strL "org/r2", strL "org/r3", strL "org/r4"]
       let projects4 : List GitlabProject :=
        [⟨strL "https://gitlab.com/org/r1"⟩, ⟨strL "https://gitlab.com/org/r2"⟩,
         ⟨strL "https://gitlab.com/org/r3"⟩, ⟨strL "https://gitlab.com/org/r4"⟩]
       let rd4 : List Char → Option Nat := fun a =>
        if a = generate_gitlab_alias (strL "org/r1") ∨ a = generate_gitlab_alias (strL "org/r2")
            ∨ a = generate_gitlab_alias (strL "org/r3") then some 0 else none
       gitlabFoundRepos batch4 rd4 projects4 = [strL "org/r1", strL "org/r2", strL "org/r3"]
       ∧ process_gitlab_batch_errors batch4 rd4 projects4
          = [RecErr.notFound (strL "https://gitlab.com/org/r4")]) := by
  constructor
  · intro batch responseData projects x
    constructor
    · constructor
      · rintro (hf | hm)
        · exact (List.mem_filter.mp hf).1
        · exact List.mem_dedup.mp (List.mem_filter.mp hm).1
      · intro hx
        by_cases hp : ((responseData (generate_gitlab_alias x)).isSome
            && (findSoftwareGitlab projects x).isSome) = true
        · exact Or.inl (List.mem_filter.mpr ⟨hx, hp⟩)
        · refine Or.inr (List.mem_filter.mpr ⟨List.mem_dedup.mpr hx, ?_⟩)
          simp only [decide_eq_true_eq]
          intro hf
          exact hp (List.mem_filter.mp hf).2
    · rintro ⟨hf, hm⟩
      have := (List.mem_filter.mp hm).2
      simp only [decide_eq_true_eq] at this
      exact this hf
  · exact ⟨by decide, by decide⟩

/-- `strftime('%m')`: zero-padded month. -/
def pad2 (n : Nat) : List Char := if n < 10 then '0' :: strL (toString n) else strL (toString n)

/-- `strftime('%Y')`: year zero-padded to four digits. -/
def pad4 (n : Nat) : List Char :=
  List.replicate (4 - (strL (toString n)).length) '0' ++ strL (toString n)

/-- `strftime('%Y-%m')` of a `(year, month)` pair. -/
def formatYM (ym : Nat × Nat) : List Char := pad4 ym.1 ++ '-' :: pad2 ym.2

/-- `datetime.now() - relativedelta(months=k)` projected to `(year, month)`
with `1 ≤ month ≤ 12`: subtraction on the absolute month index. -/
def subMonths (y m k : Nat) : Nat × Nat :=
  let t := y * 12 + (m - 1) - k
  (t / 12, t % 12 + 1)

/-- Python dict write `existing_history[ym] = count`: overwrite the value in
place when the key is present, else append the pair. -/
def upsertKey (h : List (List Char × Nat)) (k : List Char) (v : Nat) : List (List Char × Nat) :=
  if h.any (fun p => decide (p.1 = k)) then
    h.map (fun p => if p.1 = k then (p.1, v) else p)
  else h ++ [(k, v)]

/-- The merge loop of `process_github_batch` / `process_batch`: freshly
fetched months written into the stored history one by one. -/
def mergeCommitHistory (existing fresh : List (List Char × Nat)) : List (List Char × Nat) :=
  fresh.foldl (fun acc p => upsertKey acc p.1 p.2) existing

/-- Dict lookup (first occurrence). -/
def lookupKey (h : List (List Char × Nat)) (k : List Char) : Option Nat :=
  (h.find? (fun p => decide (p.1 = k))).map (fun p => p.2)

theorem lookupKey_cons (a : List Char) (w : Nat) (t : List (List Char × Nat)) (k : List Char) :
    lookupKey ((a, w) :: t) k = if a = k then some w else lookupKey t k := by
  by_cases h : a = k <;> simp [lookupKey, List.find?, h]

theorem lookupKey_upsertKey_self (h : List (List Char × Nat)) (k : List Char) (v : Nat) :
    lookupKey (upsertKey h k v) k = some v := by
  unfold upsertKey
  by_cases ha : h.any (fun p => decide (p.1 = k)) = true
  · rw [if_pos ha]
    induction h with
    | nil => simp at ha
    | cons p ps ih =>
      by_cases hp : p.1 = k
      · cases p with
        | mk a w =>
          simp only at hp
          subst hp
          simp [lookupKey, List.find?]
      · cases p with
        | mk a w =>
          simp only at hp
          have ha' : ps.any (fun p => decide (p.1 = k)) = true := by
            simp only [List.any_cons] at ha
            rcases Bool.or_eq_true_iff.mp ha with h1 | h1
            · exact absurd (of_decide_eq_true h1) hp
            · exact h1
          simp only [List.map_cons, if_neg hp]
          rw [lookupKey_cons, if_neg hp]
          exact ih ha'
  · rw [if_neg ha]
    induction h with
    | nil => simp [lookupKey, List.find?]
    | cons p ps ih =>
      cases p with
      | mk a w =>
        have hp : a ≠ k := by
          intro hak
          apply ha
          simp [List.any_cons, hak]
        have ha' : ¬ ps.any (fun p => decide (p.1 = k)) = true := by
          intro hh
          apply ha
          simp [List.any_cons, hh]
        rw [List.cons_append, lookupKey_cons, if_neg hp]
        exact ih ha'

theorem lookupKey_map_fstpreserving (f : List Char × Nat → List Char × Nat)
    (h : List (List Char × Nat)) (k : List Char)
    (h1 : ∀ p, (f p).1 = p.1) (h2 : ∀ p, p.1 = k → f p = p) :
    lookupKey (h.map f) k = lookupKey h k := by
  induction h with
  | nil => rfl
  | cons p ps ih =>
    rcases hfp : f p with ⟨b, w2⟩
    rcases p with ⟨a, w⟩
    have hb : b = a := by
      have := h1 (a, w)
      rw [hfp] at this
      exact this
    subst hb
    rw [List.map_cons, hfp, lookupKey_cons, lookupKey_cons]
    by_cases hak : b = k
    · rw [if_pos hak, if_pos hak]
      have := h2 (b, w) hak
      rw [hfp] at this
      cases this
      rfl
    · rw [if_neg hak, if_neg hak]
      exact ih

theorem lookupKey_upsertKey_ne (h : List (List Char × Nat)) (k' k : List Char) (v : Nat)
    (hne : k' ≠ k) : lookupKey (upsertKey h k' v) k = lookupKey h k := by
  unfold upsertKey
  by_cases ha : h.any (fun p => decide (p.1 = k')) = true
  · rw [if_pos ha]
    apply lookupKey_map_fstpreserving
    · intro p
      by_cases hp : p.1 = k' <;> simp [hp]
    · intro p hpk
      have hp : ¬ p.1 = k' := fun hpk' => hne (hpk' ▸ hpk)
      simp [hp]
  · rw [if_neg ha]
    induction h with
    | nil => simp [lookupKey, List.find?, hne]
    | cons p ps ih =>
      cases p with
      | mk a w =>
        have ha' : ¬ ps.any (fun p => decide (p.1 = k')) = true := by
          intro hh
          apply ha
          simp [List.any_cons, hh]
        rw [List.cons_append, lookupKey_cons, lookupKey_cons]
        by_cases hak : a = k
        · rw [if_pos hak, if_pos hak]
        · rw [if_neg hak, if_neg hak]
          exact ih ha'

theorem mergeCommitHistory_last_write (e n : List (List Char × Nat)) (k : List Char) (v : Nat)
    (hlast : lookupKey n.reverse k = some v) :
    lookupKey (mergeCommitHistory e n) k = some v := by
  induction n using List.reverseRecOn with
  | nil => simp [lookupKey, List.find?] at hlast
  | append_singleton ns b ih =>
    have hm : mergeCommitHistory e (ns ++ [b]) =
        upsertKey (mergeCommitHistory e ns) b.1 b.2 := by
      simp [mergeCommitHistory, List.foldl_append]
    rw [hm]
    cases b with
    | mk a w =>
      rw [List.reverse_append] at hlast
      simp only [List.reverse_cons, List.reverse_nil, List.nil_append, List.singleton_append] at hlast
      rw [lookupKey_cons] at hlast
      by_cases hak : a = k
      · rw [if_pos hak] at hlast
        cases hlast
        subst hak
        exact lookupKey_upsertKey_self _ _ _
      · rw [if_neg hak] at hlast
        rw [lookupKey_upsertKey_ne _ _ _ _ hak]
        exact ih hlast

theorem mergeCommitHistory_preserves (e n : List (List Char × Nat)) (k : List Char)
    (hnone : ∀ p ∈ n, p.1 ≠ k) :
    lookupKey (mergeCommitHistory e n) k = lookupKey e k := by
  induction n generalizing e with
  | nil => rfl
  | cons b ns ih =>
    have hb : b.1 ≠ k := hnone b (List.mem_cons_self b ns)
    have hns : ∀ p ∈ ns, p.1 ≠ k := fun p hp => hnone p (List.mem_cons_of_mem b hp)
    show lookupKey (mergeCommitHistory (upsertKey e b.1 b.2) ns) k = lookupKey e k
    rw [ih (upsertKey e b.1 b.2) hns]
    exact lookupKey_upsertKey_ne _ _ _ _ hb

/-- `cleanup_old_commit_history` (identical in both processor modules): with
`now = (nowY, nowM)`, keep exactly the entries whose `"YYYY-MM"` key compares
`>=` the cutoff month `now - (months_to_keep - 1)` months (Python string
comparison), returned sorted ascending by key; an empty history is returned
unchanged. -/
def cleanup_old_commit_history (nowY nowM monthsToKeep : Nat)
    (commitHistory : List (List Char × Nat)) : List (List Char × Nat) :=
  if commitHistory = [] then commitHistory
  else
    let cutoff := formatYM (subMonths nowY nowM (monthsToKeep - 1))
    List.insertionSort (fun a b => strLeL a.1 b.1 = true)
      (commitHistory.filter (fun p => strLeL cutoff p.1))

/-- C5: merging freshly fetched months overwrites matching months (the last
written value wins) and preserves non-overlapping months; cleanup retains
exactly the entries whose key is lexicographically `>=` the cutoff month
`now - (retain_months - 1)` and returns them sorted ascending by key; with
`commit_history_clean_months = 12` and keys 2022-01, 2023-06, 2023-07
evaluated as of 2023-07, the entry 2022-01 is dropped and the other two kept. -/
theorem C5_commit_history_aggregator :
    (∀ (e n : List (List Char × Nat)) (k : List Char) (v : Nat),
      lookupKey n.reverse k = some v → lookupKey (mergeCommitHistory e n) k = some v)
    ∧ (∀ (e n : List (List Char × Nat)) (k : List Char),
      (∀ p ∈ n, p.1 ≠ k) → lookupKey (mergeCommitHistory e n) k = lookupKey e k)
    ∧ (∀ (nowY nowM mtk : Nat) (h : List (List Char × Nat)) (p : List Char × Nat),
      p ∈ cleanup_old_commit_history nowY nowM mtk h
        ↔ p ∈ h ∧ strLeL (formatYM (subMonths nowY nowM (mtk - 1))) p.1 = true)
    ∧ (∀ (nowY nowM mtk : Nat) (h : List (List Char × Nat)),
      List.Sorted (fun a b : List Char × Nat => strLeL a.1 b.1 = true)
        (cleanup_old_commit_history nowY nowM mtk h))
    ∧ cleanup_old_commit_history 2023 7 12
        [(strL "2022-01", 5), (strL "2023-06", 3), (strL "2023-07", 4)]
      = [(strL "2023-06", 3), (strL "2023-07", 4)] := by
  refine ⟨mergeCommitHistory_last_write, mergeCommitHistory_preserves, ?_, ?_, by decide⟩
  · intro nowY nowM mtk h p
    by_cases hh : h = []
    · subst hh
      simp [cleanup_old_commit_history]
    · rw [cleanup_old_commit_history, if_neg hh]
      rw [(List.perm_insertionSort _ _).mem_iff, List.mem_filter]
  · intro nowY nowM mtk h
    by_cases hh : h = []
    · subst hh
      simp [cleanup_old_commit_history]
    · rw [cleanup_old_commit_history, if_neg hh]
      haveI : IsTotal (List Char × Nat) (fun a b => strLeL a.1 b.1 = true) :=
        ⟨fun a b => strLeL_total a.1 b.1⟩
      haveI : IsTrans (List Char × Nat) (fun a b => strLeL a.1 b.1 = true) :=
        ⟨fun a b c => strLeL_trans a.1 b.1 c.1⟩
      exact List.sorted_insertionSort _ _

/-- Witness for C5 at a concrete merge: the fresh value for 2023-06 overwrites
the stored one, and the untouched month 2022-01 is preserved. -/
theorem C5_commit_history_aggregator_witness :
    (lookupKey ([(strL "2023-06", 9), (strL "2023-07", 2)] : List (List Char × Nat)).reverse
        (strL "2023-06") = some 9
      ∧ lookupKey (mergeCommitHistory [(strL "2023-06", 1), (strL "2022-01", 7)]
          [(strL "2023-06", 9), (strL "2023-07", 2)]) (strL "2023-06") = some 9)
    ∧ ((∀ p ∈ ([(strL "2023-06", 9), (strL "2023-07", 2)] : List (List Char × Nat)),
          p.1 ≠ strL "2022-01")
      ∧ lookupKey (mergeCommitHistory [(strL "2023-06", 1), (strL "2022-01", 7)]
          [(strL "2023-06", 9), (strL "2023-07", 2)]) (strL "2022-01")
        = lookupKey [(strL "2023-06", 1), (strL "2022-01", 7)] (strL "2022-01")) :=
  ⟨⟨by decide, C5_commit_history_aggregator.1 _ _ _ 9 (by decide)⟩,
   ⟨by decide, C5_commit_history_aggregator.2.1 _ _ _ (by decide)⟩⟩

/-- The chunking step shared by `software_metadata.process_graphql_request`
and `github_metadata.process_batch`: `num_splits = min(2^(attempt-1),
len(batch))`, `chunk_size = max(1, len(batch) // num_splits)`; chunk `i` is
`batch[i*chunk_size : (i+1)*chunk_size]` except the last, which takes all
remaining items; falsy (empty) chunks are skipped. -/
def splitChunks {α : Type} (batchItems : List α) (attempt : Nat) : List (List α) :=
  let numSplits := min (2 ^ (attempt - 1)) batchItems.length
  let chunkSize := max 1 (batchItems.length / numSplits)
  ((List.range numSplits).map (fun i =>
    if i = numSplits - 1 then batchItems.drop (i * chunkSize)
    else (batchItems.drop (i * chunkSize)).take chunkSize)).filter (fun c => !c.isEmpty)

theorem rangeChunks_flatten {α : Type} (j c : Nat) (l : List α) :
    ((List.range j).map (fun i => (l.drop (i * c)).take c)).flatten = l.take (j * c) := by
  induction j with
  | zero => simp
  | succ m ih =>
    rw [List.range_succ, List.map_append, List.flatten_append, ih]
    simp only [List.map_cons, List.map_nil, List.flatten_cons, List.flatten_nil, List.append_nil]
    rw [Nat.succ_mul, List.take_add]

theorem fullChunks_flatten {α : Type} (m c : Nat) (l : List α) :
    ((List.range (m + 1)).map (fun i =>
        if i = (m + 1) - 1 then l.drop (i * c) else (l.drop (i * c)).take c)).flatten = l := by
  rw [List.range_succ, List.map_append, List.flatten_append]
  have hmap : (List.range m).map (fun i =>
      if i = (m + 1) - 1 then l.drop (i * c) else (l.drop (i * c)).take c)
      = (List.range m).map (fun i => (l.drop (i * c)).take c) := by
    apply List.map_congr_left
    intro i hi
    have : i ≠ (m + 1) - 1 := by
      have := List.mem_range.mp hi
      omega
    rw [if_neg this]
  rw [hmap, rangeChunks_flatten]
  simp [List.take_append_drop]

theorem flatten_filter_nonempty {α : Type} (L : List (List α)) :
    (L.filter (fun c => !c.isEmpty)).flatten = L.flatten := by
  induction L with
  | nil => rfl
  | cons c cs ih =>
    by_cases hc : c.isEmpty
    · have hnil : c = [] := List.isEmpty_iff.mp hc
      rw [List.filter_cons, hc]
      simp only [Bool.not_true, List.flatten_cons, hnil, List.nil_append]
      exact ih
    · rw [List.filter_cons]
      have hb : (!c.isEmpty) = true := by simp [hc]
      rw [hb]
      simp only [if_true, List.flatten_cons, ih]

/-- C3: at every split (attempt >= 2, batch of more than one item), the chunks
produced — `num_splits` nonempty slices, the last one holding all remaining
items — concatenate back to the original batch, so no identifier is lost or
duplicated; consequently every identifier occurs in the leaves of a split
recursion exactly as often as in the original batch. -/
theorem C3_batch_splitting_partition {α : Type} [DecidableEq α] (batch : List α) (attempt : Nat)
    (h2 : 2 ≤ attempt) (hlen : 1 < batch.length) :
    (splitChunks batch attempt).flatten = batch
    ∧ (splitChunks batch attempt).length = min (2 ^ (attempt - 1)) batch.length
    ∧ (∀ c ∈ splitChunks batch attempt, c ≠ [])
    ∧ (∀ x : α, (splitChunks batch attempt).flatten.count x = batch.count x) := by
  have hk2 : 2 ≤ min (2 ^ (attempt - 1)) batch.length := by
    have h1 : 2 ≤ 2 ^ (attempt - 1) := by
      calc (2 : Nat) = 2 ^ 1 := rfl
        _ ≤ 2 ^ (attempt - 1) := Nat.pow_le_pow_right (by omega) (by omega)
    omega
  have hkle : min (2 ^ (attempt - 1)) batch.length ≤ batch.length := min_le_right _ _
  have hkpos : 0 < min (2 ^ (attempt - 1)) batch.length := by omega
  have hdiv1 : 1 ≤ batch.length / min (2 ^ (attempt - 1)) batch.length :=
    (Nat.one_le_div_iff hkpos).mpr hkle
  have hmax : max 1 (batch.length / min (2 ^ (attempt - 1)) batch.length)
      = batch.length / min (2 ^ (attempt - 1)) batch.length := Nat.max_eq_right hdiv1
  have hchunks : splitChunks batch attempt
      = ((List.range (min (2 ^ (attempt - 1)) batch.length)).map (fun i =>
          if i = min (2 ^ (attempt - 1)) batch.length - 1
          then batch.drop (i * (batch.length / min (2 ^ (attempt - 1)) batch.length))
          else (batch.drop (i * (batch.length / min (2 ^ (attempt - 1)) batch.length))).take
            (batch.length / min (2 ^ (attempt - 1)) batch.length))).filter
          (fun c => !c.isEmpty) := by
    simp only [splitChunks, hmax]
  have harith : ∀ i < min (2 ^ (attempt - 1)) batch.length,
      i * (batch.length / min (2 ^ (attempt - 1)) batch.length) < batch.length := by
    intro i hi
    have hC : (batch.length / min (2 ^ (attempt - 1)) batch.length)
        * min (2 ^ (attempt - 1)) batch.length ≤ batch.length := Nat.div_mul_le_self _ _
    have hA : i * (batch.length / min (2 ^ (attempt - 1)) batch.length)
        ≤ (min (2 ^ (attempt - 1)) batch.length - 1)
          * (batch.length / min (2 ^ (attempt - 1)) batch.length) :=
      Nat.mul_le_mul_right _ (by omega)
    have hB : (min (2 ^ (attempt - 1)) batch.length - 1)
          * (batch.length / min (2 ^ (attempt - 1)) batch.length)
        = min (2 ^ (attempt - 1)) batch.length
            * (batch.length / min (2 ^ (attempt - 1)) batch.length)
          - 1 * (batch.length / min (2 ^ (attempt - 1)) batch.length) := Nat.sub_mul _ _ _
    have hCge : batch.length / min (2 ^ (attempt - 1)) batch.length
        ≤ min (2 ^ (attempt - 1)) batch.length
          * (batch.length / min (2 ^ (attempt - 1)) batch.length) :=
      Nat.le_mul_of_pos_left _ (by omega)
    rw [mul_comm] at hC
    omega
  have hnonempty : ∀ c ∈ (List.range (min (2 ^ (attempt - 1)) batch.length)).map (fun i =>
      if i = min (2 ^ (attempt - 1)) batch.length - 1
      then batch.drop (i * (batch.length / min (2 ^ (attempt - 1)) batch.length))
      else (batch.drop (i * (batch.length / min (2 ^ (attempt - 1)) batch.length))).take
        (batch.length / min (2 ^ (attempt - 1)) batch.length)), (!c.isEmpty) = true := by
    intro c hc
    obtain ⟨i, hi, rfl⟩ := List.mem_map.mp hc
    have hi' := List.mem_range.mp hi
    have hlt := harith i hi'
    by_cases hlast : i = min (2 ^ (attempt - 1)) batch.length - 1
    · rw [if_pos hlast]
      have : 0 < (batch.drop
          (i * (batch.length / min (2 ^ (attempt - 1)) batch.length))).length := by
        rw [List.length_drop]
        omega
      simp [List.isEmpty_iff, ← List.length_pos]
      omega
    · rw [if_neg hlast]
      have : 0 < ((batch.drop
          (i * (batch.length / min (2 ^ (attempt - 1)) batch.length))).take
          (batch.length / min (2 ^ (attempt - 1)) batch.length)).length := by
        rw [List.length_take, List.length_drop]
        omega
      simp [List.isEmpty_iff, ← List.length_pos]
      omega
  have hflat : (splitChunks batch attempt).flatten = batch := by
    rw [hchunks, flatten_filter_nonempty]
    obtain ⟨m, hm⟩ : ∃ m, min (2 ^ (attempt - 1)) batch.length = m + 1 :=
      ⟨min (2 ^ (attempt - 1)) batch.length - 1, by omega⟩
    rw [hm]
    exact fullChunks_flatten m _ batch
  refine ⟨hflat, ?_, ?_, fun x => by rw [hflat]⟩
  · rw [hchunks, List.filter_eq_self.mpr hnonempty, List.length_map, List.length_range]
  · intro c hc
    rw [hchunks] at hc
    have := (List.mem_filter.mp hc).2
    simpa [List.isEmpty_iff] using this

/-- Witness for C3 at batch `[1,2,3,4,5]`, attempt `3`: four chunks
`[1] [2] [3] [4,5]` that concatenate back to the batch. -/
theorem C3_batch_splitting_partition_witness :
    (2 ≤ 3 ∧ 1 < ([1, 2, 3, 4, 5] : List Nat).length)
    ∧ ((splitChunks ([1, 2, 3, 4, 5] : List Nat) 3).flatten = [1, 2, 3, 4, 5]
      ∧ (splitChunks ([1, 2, 3, 4, 5] : List Nat) 3).length = min (2 ^ (3 - 1)) ([1, 2, 3, 4, 5] : List Nat).length
      ∧ (∀ c ∈ splitChunks ([1, 2, 3, 4, 5] : List Nat) 3, c ≠ [])
      ∧ (∀ x : Nat, (splitChunks ([1, 2, 3, 4, 5] : List Nat) 3).flatten.count x
          = ([1, 2, 3, 4, 5] : List Nat).count x)) :=
  ⟨⟨by decide, by decide⟩,
   C3_batch_splitting_partition [1, 2, 3, 4, 5] 3 (by decide) (by decide)⟩

/-- A scripted response of the mocked HTTP layer: status code, the GraphQL
`errors` array of the JSON body (empty when the key is absent), and an
abstract payload standing for the parsed `data`. -/
structure MockResp where
  status : Nat
  gqlErrors : List String
  payload : Nat
deriving DecidableEq

inductive SleepKind
  | backoff
  | interChunk
deriving DecidableEq

/-- Observable events of the controller: one `req` per HTTP POST (tagged with
the `batch_items` argument, `none` for a plain request), one `sleep` per
`time.sleep` call. -/
inductive TraceEv
  | req (batch : Option (List String))
  | sleep (kind : SleepKind) (dur : Nat)
deriving DecidableEq

/-- The error messages `process_graphql_request` appends, as structured values
carrying the same information as the formatted strings. -/
inductive ErrMsg
  | failedRepoAfterAttempts (repo : String) (n : Nat)
  | postStatusAfterRetries (code n : Nat)
  | failedIdentAfterAttempts (ident : String) (n : Nat)
  | gqlFailedAfterRetries (code n : Nat)
  | postStatus (ident : String) (code : Nat)
  | gqlError (ident msg : String)
  | gqlErrorsFor (ident : String)
  | gqlErrorsNoCtx
deriving DecidableEq

/-- What `process_graphql_request` returns: parsed data, the
`split_processed` marker dict, `None` (with `None` headers), or `sys.exit`. -/
inductive GqlResult
  | ok (payload : Nat)
  | splitProcessed
  | noData
  | exited (code : Nat)
deriving DecidableEq

structure RetryConfig where
  baseSleep : Nat
  maxRetries : Nat
deriving DecidableEq

/-- The `for i, split_batch in enumerate(split_batches)` loop of
`process_graphql_request`: run the batch procedure on each chunk in turn,
threading the scripted responses, sleeping `base_sleep_time` between
consecutive chunks (not after the last); a `sys.exit` raised inside a chunk
aborts the loop. Returns the events, errors, remaining script, and the abort
code if any. -/
def runChunksWith
    (run : List String → List MockResp → GqlResult × List TraceEv × List ErrMsg × List MockResp)
    (base : Nat) :
    List (List String) → List MockResp → List TraceEv × List ErrMsg × List MockResp × Option Nat
  | [], rs => ([], [], rs, none)
  | c :: cs, rs =>
    let out := run c rs
    match out.1 with
    | .exited code => (out.2.1, out.2.2.1, out.2.2.2, some code)
    | _ =>
      match cs with
      | [] => (out.2.1, out.2.2.1, out.2.2.2, none)
      | _ :: _ =>
        let out2 := runChunksWith run base cs out.2.2.2
        (out.2.1 ++ TraceEv.sleep .interChunk base :: out2.1,
         out.2.2.1 ++ out2.2.1, out2.2.2.1, out2.2.2.2)

/-- `software_metadata.process_graphql_request` against the scripted mock:
`fuel` only bounds the recursion depth (every theorem below supplies enough);
`ident` is the `repo_identifier` argument (`"batch N"` from the batch
processors), `hasCb` whether an `on_batch_split` callback was given.  Returns
the result, the event trace, the errors appended, and the unconsumed script.
On a retryable status (502/503/504/429): give up past `max_retries`; otherwise
sleep the exponential backoff, then retry the identical batch at attempt 1,
split via `splitChunks` at attempt >= 2 for multi-item batches (chunks re-run
the batch procedure at the same attempt number), and for a single-item batch
append a failure message each attempt >= 2 and retry while `attempt <
max_retries`, appending the final message again on give-up.  Non-retryable
non-200 statuses record one error without retry.  GraphQL-level errors inside
a 200 response are recorded per error; with a `repo_identifier` context a
summary error is recorded and `None` returned, without context `sys.exit(1)`
is raised.  A 200 response without errors returns its payload. -/
def processGraphql (fuel : Nat) (cfg : RetryConfig) (ident : String) (attempt : Nat)
    (batchItems : Option (List String)) (hasCb : Bool) (rs : List MockResp) :
    GqlResult × List TraceEv × List ErrMsg × List MockResp :=
  match fuel with
  | 0 => (.noData, [], [], rs)
  | fuel' + 1 =>
    let resp := rs.headD ⟨200, [], 0⟩
    let rest := rs.tail
    if resp.status = 502 ∨ resp.status = 503 ∨ resp.status = 504 ∨ resp.status = 429 then
      if attempt ≤ cfg.maxRetries then
        let evs0 : List TraceEv :=
          [.req batchItems, .sleep .backoff (cfg.baseSleep * 2 ^ (attempt - 1))]
        if attempt = 1 then
          let out := processGraphql fuel' cfg ident (attempt + 1) batchItems hasCb rest
          (out.1, evs0 ++ out.2.1, out.2.2.1, out.2.2.2)
        else
          match batchItems with
          | some b =>
            if hasCb = true ∧ 1 < b.length then
              let out := runChunksWith
                (fun c rs' => processGraphql fuel' cfg ident attempt (some c) true rs')
                cfg.baseSleep (splitChunks b attempt) rest
              ((match out.2.2.2 with
                | some code => GqlResult.exited code
                | none => GqlResult.splitProcessed),
               evs0 ++ out.1, out.2.1, out.2.2.1)
            else
              let errs1 : List ErrMsg :=
                if b.length = 1 then [.failedRepoAfterAttempts (b.headD "") attempt] else []
              if attempt < cfg.maxRetries then
                let out := processGraphql fuel' cfg ident (attempt + 1) batchItems hasCb rest
                (out.1, evs0 ++ out.2.1, errs1 ++ out.2.2.1, out.2.2.2)
              else
                let errs2 : List ErrMsg :=
                  if b.length = 1 then [.failedRepoAfterAttempts (b.headD "") cfg.maxRetries]
                  else []
                (.noData, evs0, errs1 ++ errs2, rest)
          | none =>
            if attempt < cfg.maxRetries then
              let out := processGraphql fuel' cfg ident (attempt + 1) batchItems hasCb rest
              (out.1, evs0 ++ out.2.1, out.2.2.1, out.2.2.2)
            else
              (.noData, evs0, [], rest)
      else
        (.noData, [TraceEv.req batchItems],
         (if ident = "" then [ErrMsg.postStatusAfterRetries resp.status cfg.maxRetries]
          else [ErrMsg.failedIdentAfterAttempts ident cfg.maxRetries])
           ++ [ErrMsg.gqlFailedAfterRetries resp.status cfg.maxRetries], rest)
    else if resp.status ≠ 200 then
      (.noData, [.req batchItems], [.postStatus ident resp.status], rest)
    else if resp.gqlErrors ≠ [] then
      if ident = "" then
        (.exited 1, [.req batchItems],
         resp.gqlErrors.map (ErrMsg.gqlError ident) ++ [.gqlErrorsNoCtx], rest)
      else
        (.noData, [.req batchItems],
         resp.gqlErrors.map (ErrMsg.gqlError ident) ++ [.gqlErrorsFor ident], rest)
    else
      (.ok resp.payload, [.req batchItems], [], rest)

/-- Claim-side description of the split loop (follows the claim's words): the
per-chunk traces and errors of running the batch procedure on each chunk with
the same attempt number, threading the response script chunk to chunk. -/
def chunkTraces
    (run : List String → List MockResp → GqlResult × List TraceEv × List ErrMsg × List MockResp) :
    List (List String) → List MockResp → List (List TraceEv) × List ErrMsg × List MockResp
  | [], rs => ([], [], rs)
  | c :: cs, rs =>
    let out := run c rs
    let out2 := chunkTraces run cs out.2.2.2
    (out.2.1 :: out2.1, out.2.2.1 ++ out2.2.1, out2.2.2)

/-- Claim-side description of the inter-chunk pacing (follows the claim's
words): one `base_sleep_time` sleep between consecutive chunk traces, none
after the last. -/
def interleaveSleeps (base : Nat) : List (List TraceEv) → List TraceEv
  | [] => []
  | [t] => t
  | t :: ts => t ++ TraceEv.sleep .interChunk base :: interleaveSleeps base ts

theorem runChunksWith_eq_interleave
    (run : List String → List MockResp → GqlResult × List TraceEv × List ErrMsg × List MockResp)
    (base : Nat) (chunks : List (List String)) (rs : List MockResp)
    (hrun : ∀ c rs' code, (run c rs').1 ≠ GqlResult.exited code) :
    runChunksWith run base chunks rs
      = (interleaveSleeps base (chunkTraces run chunks rs).1,
         (chunkTraces run chunks rs).2.1, (chunkTraces run chunks rs).2.2, none) := by
  induction chunks generalizing rs with
  | nil => rfl
  | cons c cs ih =>
    simp only [runChunksWith, chunkTraces]
    rcases hre : run c rs with ⟨r, evs, errs, rs1⟩
    cases r with
    | exited code => exact absurd (by rw [hre] : (run c rs).1 = .exited code) (hrun c rs code)
    | ok p =>
      cases cs with
      | nil => simp [interleaveSleeps, chunkTraces]
      | cons c2 cs2 =>
        rw [ih rs1]
        simp only [chunkTraces, interleaveSleeps]
    | splitProcessed =>
      cases cs with
      | nil => simp [interleaveSleeps, chunkTraces]
      | cons c2 cs2 =>
        rw [ih rs1]
        simp only [chunkTraces, interleaveSleeps]
    | noData =>
      cases cs with
      | nil => simp [interleaveSleeps, chunkTraces]
      | cons c2 cs2 =>
        rw [ih rs1]
        simp only [chunkTraces, interleaveSleeps]

theorem runChunksWith_abort_none
    (run : List String → List MockResp → GqlResult × List TraceEv × List ErrMsg × List MockResp)
    (base : Nat) (chunks : List (List String)) (rs : List MockResp)
    (hrun : ∀ c rs' code, (run c rs').1 ≠ GqlResult.exited code) :
    (runChunksWith run base chunks rs).2.2.2 = none := by
  rw [runChunksWith_eq_interleave run base chunks rs hrun]

theorem processGraphql_ne_exited (fuel : Nat) (cfg : RetryConfig) (ident : String)
    (hident : ident ≠ "") :
    ∀ (attempt : Nat) (bi : Option (List String)) (hcb : Bool) (rs : List MockResp) (code : Nat),
      (processGraphql fuel cfg ident attempt bi hcb rs).1 ≠ GqlResult.exited code := by
  induction fuel with
  | zero =>
    intro attempt bi hcb rs code
    simp [processGraphql]
  | succ fuel' ih =>
    intro attempt bi hcb rs code
    simp only [processGraphql, if_neg hident]
    split
    · split
      · split
        · exact ih _ _ _ _ _
        · split
          · split
            · rw [runChunksWith_abort_none _ _ _ _
                (fun c rs' code' => ih attempt (some c) true rs' code')]
              simp
            · split
              · exact ih _ _ _ _ _
              · simp
          · split
            · exact ih _ _ _ _ _
            · simp
      · simp
    · split
      · simp
      · split
        · simp
        · simp

/-- C1: on a retryable status (502/503/504/429) for a batch request, if
`attempt > max_retries` the controller gives up with a final error and issues
no further request for that batch; otherwise it first sleeps
`base_sleep_time * 2^(attempt-1)` seconds and then: at `attempt = 1` it
re-runs the identical batch with the attempt incremented; at `attempt >= 2`
with more than one item it runs the full batch procedure on each chunk of
`splitChunks` (that is, `min(2^(attempt-1), len(batch))` chunks) with the same
attempt number, sleeping `base_sleep_time` between consecutive chunks and not
after the last, and reports the batch as split-processed. -/
theorem C1_retry_backoff_controller
    (fuel : Nat) (cfg : RetryConfig) (ident : String) (attempt : Nat)
    (batch : List String) (resp : MockResp) (rest : List MockResp)
    (hretry : resp.status = 502 ∨ resp.status = 503 ∨ resp.status = 504 ∨ resp.status = 429)
    (hident : ident ≠ "") :
    (cfg.maxRetries < attempt →
      processGraphql (fuel + 1) cfg ident attempt (some batch) true (resp :: rest)
        = (.noData, [.req (some batch)],
           [.failedIdentAfterAttempts ident cfg.maxRetries,
            .gqlFailedAfterRetries resp.status cfg.maxRetries], rest))
    ∧ (attempt = 1 → attempt ≤ cfg.maxRetries →
      processGraphql (fuel + 1) cfg ident attempt (some batch) true (resp :: rest)
        = ((processGraphql fuel cfg ident (attempt + 1) (some batch) true rest).1,
           .req (some batch) :: .sleep .backoff (cfg.baseSleep * 2 ^ (attempt - 1))
             :: (processGraphql fuel cfg ident (attempt + 1) (some batch) true rest).2.1,
           (processGraphql fuel cfg ident (attempt + 1) (some batch) true rest).2.2.1,
           (processGraphql fuel cfg ident (attempt + 1) (some batch) true rest).2.2.2))
    ∧ (2 ≤ attempt → attempt ≤ cfg.maxRetries → 1 < batch.length →
      processGraphql (fuel + 1) cfg ident attempt (some batch) true (resp :: rest)
        = (.splitProcessed,
           .req (some batch) :: .sleep .backoff (cfg.baseSleep * 2 ^ (attempt - 1))
             :: interleaveSleeps cfg.baseSleep
               (chunkTraces
                 (fun c rs' => processGraphql fuel cfg ident attempt (some c) true rs')
                 (splitChunks batch attempt) rest).1,
           (chunkTraces
             (fun c rs' => processGraphql fuel cfg ident attempt (some c) true rs')
             (splitChunks batch attempt) rest).2.1,
           (chunkTraces
             (fun c rs' => processGraphql fuel cfg ident attempt (some c) true rs')
             (splitChunks batch attempt) rest).2.2)) := by
  refine ⟨?_, ?_, ?_⟩
  · intro hgt
    simp only [processGraphql, List.headD_cons, List.tail_cons]
    rw [if_pos hretry, if_neg (by omega : ¬ attempt ≤ cfg.maxRetries), if_neg hident]
    rfl
  · intro h1 hle
    subst h1
    simp only [processGraphql, List.headD_cons, List.tail_cons]
    rw [if_pos hretry, if_pos hle, if_pos trivial]
    rfl
  · intro h2 hle hlen
    simp only [processGraphql, List.headD_cons, List.tail_cons]
    rw [if_pos hretry, if_pos hle, if_neg (by omega : ¬ attempt = 1)]
    rw [runChunksWith_eq_interleave _ _ _ _
      (fun c rs' code' =>
        processGraphql_ne_exited fuel cfg ident hident attempt (some c) true rs' code')]
    rw [if_pos ⟨trivial, hlen⟩]
    rfl

/-- Witness for C1: a two-item batch at attempt 2 with `base_sleep_time = 7`
hits a 503, sleeps the backoff `7 * 2^1 = 14`, splits into the chunks `["a"]`
and `["b"]`, re-runs each at attempt 2 with one inter-chunk sleep of 7, and
reports the batch as split-processed. -/
theorem C1_retry_backoff_controller_witness :
    ((503 : Nat) = 502 ∨ (503 : Nat) = 503 ∨ (503 : Nat) = 504 ∨ (503 : Nat) = 429)
    ∧ ("batch 1" : String) ≠ ""
    ∧ processGraphql (4 + 1) ⟨7, 3⟩ "batch 1" 2 (some ["a", "b"]) true
        ((⟨503, [], 0⟩ : MockResp) :: [⟨200, [], 7⟩, ⟨200, [], 8⟩])
      = (.splitProcessed,
         [.req (some ["a", "b"]), .sleep .backoff 14, .req (some ["a"]),
          .sleep .interChunk 7, .req (some ["b"])], [], []) :=
  ⟨by decide, by decide, by
    rw [(C1_retry_backoff_controller 4 ⟨7, 3⟩ "batch 1" 2 ["a", "b"] ⟨503, [], 0⟩
        [⟨200, [], 7⟩, ⟨200, [], 8⟩] (by decide) (by decide)).2.2
        (by decide) (by decide) (by decide)]
    decide⟩

/-- C4, evaluated at the failing input: for the single-item batch
`["foo/bar"]` with `max_retries = 3` and a mock returning 503, 503, 200,
`process_graphql_request` performs exactly the two backoff sleeps and returns
the successful data — but it nevertheless records the permanent-failure
message `Failed to fetch metadata for repository foo/bar after 2 attempts`
(the single-item branch appends it on every failing attempt >= 2 before
retrying, not only at final give-up).  With 503, 503, 503 the permanent
message is recorded three times: once at attempt 2 and twice at the give-up
on attempt 3. -/
theorem C4_single_item_retry_code_bug :
    processGraphql 9 ⟨1, 3⟩ "batch 1" 1 (some ["foo/bar"]) true
      [⟨503, [], 0⟩, ⟨503, [], 0⟩, ⟨200, [], 42⟩]
    = (.ok 42,
       [.req (some ["foo/bar"]), .sleep .backoff 1,
        .req (some ["foo/bar"]), .sleep .backoff 2,
        .req (some ["foo/bar"])],
       [.failedRepoAfterAttempts "foo/bar" 2], [])
    ∧ processGraphql 9 ⟨1, 3⟩ "batch 1" 1 (some ["foo/bar"]) true
      [⟨503, [], 0⟩, ⟨503, [], 0⟩, ⟨503, [], 0⟩]
    = (.noData,
       [.req (some ["foo/bar"]), .sleep .backoff 1,
        .req (some ["foo/bar"]), .sleep .backoff 2,
        .req (some ["foo/bar"]), .sleep .backoff 4],
       [.failedRepoAfterAttempts "foo/bar" 2,
        .failedRepoAfterAttempts "foo/bar" 3,
        .failedRepoAfterAttempts "foo/bar" 3], []) := by
  constructor
  · decide
  · decide

/-- The end-of-run error handling shared by `software_metadata` and
`github_metadata.add_github_metadata`: when any errors accumulated, print
them and exit with code 1; otherwise finish normally. -/
def finalizeRun (errors : List ErrMsg) : Option Nat :=
  if errors.isEmpty then none else some 1

/-- C9 counterexample: GraphQL-level errors inside an HTTP 200 response for a
whole un-split multi-item batch do not abort the run — the batch processors
always pass a `"batch N"` context, in which case the errors are recorded,
`None` is returned, and processing continues (`noData`, not `exited`). -/
theorem C9_counterexample_no_immediate_abort :
    processGraphql 3 ⟨1, 3⟩ "batch 1" 1 (some ["a", "b"]) true [⟨200, ["boom"], 0⟩]
      = (.noData, [.req (some ["a", "b"])],
         [.gqlError "batch 1" "boom", .gqlErrorsFor "batch 1"], []) := by decide

/-- C9 (amended): GraphQL-level errors inside an HTTP 200 response raise
`sys.exit(1)` only when the request carries no repo/batch context string; with
a context string — which the batch processors always pass (`"batch N"`), also
for a whole un-split multi-item batch — each error is recorded together with a
summary error, `None` is returned and processing continues; a run that
accumulated any errors exits non-zero at end of run. -/
theorem C9_graphql_errors_amended
    (fuel : Nat) (cfg : RetryConfig) (ident : String) (attempt : Nat)
    (bi : Option (List String)) (hcb : Bool) (resp : MockResp) (rest : List MockResp)
    (h200 : resp.status = 200) (herr : resp.gqlErrors ≠ []) :
    (ident ≠ "" →
      processGraphql (fuel + 1) cfg ident attempt bi hcb (resp :: rest)
        = (.noData, [.req bi],
           resp.gqlErrors.map (ErrMsg.gqlError ident) ++ [.gqlErrorsFor ident], rest))
    ∧ (ident = "" →
      processGraphql (fuel + 1) cfg ident attempt bi hcb (resp :: rest)
        = (.exited 1, [.req bi],
           resp.gqlErrors.map (ErrMsg.gqlError ident) ++ [.gqlErrorsNoCtx], rest))
    ∧ (∀ errs : List ErrMsg, errs ≠ [] → finalizeRun errs = some 1) := by
  refine ⟨?_, ?_, ?_⟩
  · intro hident
    simp only [processGraphql, List.headD_cons, List.tail_cons]
    rw [if_neg (by rw [h200]; decide), if_neg (by rw [h200]; decide), if_pos herr,
      if_neg hident]
  · intro hident
    simp only [processGraphql, List.headD_cons, List.tail_cons]
    rw [if_neg (by rw [h200]; decide), if_neg (by rw [h200]; decide), if_pos herr,
      if_pos hident]
  · intro errs herrs
    rw [finalizeRun, if_neg (by simpa using herrs)]

/-- Witness for C9 (amended) at a concrete 200-with-errors response, in both
the with-context and no-context situations. -/
theorem C9_graphql_errors_amended_witness :
    ((⟨200, ["boom"], 5⟩ : MockResp).status = 200)
    ∧ ((⟨200, ["boom"], 5⟩ : MockResp).gqlErrors ≠ [])
    ∧ processGraphql (2 + 1) ⟨1, 3⟩ "batch 1" 1 (some ["a", "b"]) true
        ((⟨200, ["boom"], 5⟩ : MockResp) :: [])
      = (.noData, [.req (some ["a", "b"])],
         [.gqlError "batch 1" "boom", .gqlErrorsFor "batch 1"], [])
    ∧ processGraphql (2 + 1) ⟨1, 3⟩ "" 1 none false ((⟨200, ["boom"], 5⟩ : MockResp) :: [])
      = (.exited 1, [.req none], [.gqlError "" "boom", .gqlErrorsNoCtx], [])
    ∧ finalizeRun [.gqlError "batch 1" "boom"] = some 1 :=
  ⟨by decide, by decide,
   by
    rw [(C9_graphql_errors_amended 2 ⟨1, 3⟩ "batch 1" 1 (some ["a", "b"]) true
        ⟨200, ["boom"], 5⟩ [] (by decide) (by decide)).1 (by decide)]
    decide,
   by
    rw [(C9_graphql_errors_amended 2 ⟨1, 3⟩ "" 1 none false
        ⟨200, ["boom"], 5⟩ [] (by decide) (by decide)).2.1 rfl]
    decide,
   (C9_graphql_errors_amended 2 ⟨1, 3⟩ "" 1 none false
        ⟨200, ["boom"], 5⟩ [] (by decide) (by decide)).2.2 _ (by decide)⟩

/-- Filesystem operations performed by the YAML writers. -/
inductive FsOp
  | write (path : List Char)
  | rename (src dst : List Char)
deriving DecidableEq

/-- Destination path used by `write_software_yaml`:
`{source_directory}/software/{to_kebab_case(name)}.yml`. -/
def software_yaml_path (sourceDir name : List Char) : List Char :=
  sourceDir ++ strL "/software/" ++ to_kebab_case name ++ strL ".yml"

/-- `write_software_yaml` (identical in both processor modules): one direct
`open(dest_file, 'w+')` dump to the destination file. -/
def write_software_yaml_ops (sourceDir name : List Char) : List FsOp :=
  [.write (software_yaml_path sourceDir name)]

/-- `utils.write_data_file`: dump the full content to `data_file + '.tmp'`,
then `os.rename` the temporary file over `data_file`. -/
def write_data_file_ops (dataFile : List Char) : List FsOp :=
  [.write (dataFile ++ strL ".tmp"), .rename (dataFile ++ strL ".tmp") dataFile]

/-- Modelled from the spec: an atomic write of `dst` is a write of the full
content to a temporary file distinct from `dst` followed by a rename of that
temporary file over `dst`. -/
def isAtomicWriteTo (dst : List Char) : List FsOp → Bool
  | [FsOp.write t, FsOp.rename s d] => t == s && d == dst && !(t == dst)
  | _ => false

/-- C7 counterexample: the per-record writer `write_software_yaml` performs a
single direct write of the record file — no temporary file, no rename — so
the per-record update is not the write-to-temp-plus-rename pattern the claim
asserts for every record write. -/
theorem C7_counterexample_direct_record_write :
    write_software_yaml_ops (strL "tests/awesome-selfhosted-data") (strL "Foo Bar")
      = [FsOp.write (strL "tests/awesome-selfhosted-data/software/foo-bar.yml")]
    ∧ isAtomicWriteTo
        (software_yaml_path (strL "tests/awesome-selfhosted-data") (strL "Foo Bar"))
        (write_software_yaml_ops (strL "tests/awesome-selfhosted-data") (strL "Foo Bar"))
      = false := by
  constructor
  · decide
  · decide

/-- C7 (amended): only `utils.write_data_file` (used for the single aggregated
data file of other steps) writes atomically via temp-file-plus-rename; the
per-record writer `write_software_yaml` opens the destination directly and is
not atomic. -/
theorem C7_write_atomicity_amended (dataFile sourceDir name : List Char) :
    isAtomicWriteTo dataFile (write_data_file_ops dataFile) = true
    ∧ write_software_yaml_ops sourceDir name
        = [FsOp.write (software_yaml_path sourceDir name)]
    ∧ isAtomicWriteTo (software_yaml_path sourceDir name)
        (write_software_yaml_ops sourceDir name) = false := by
  refine ⟨?_, rfl, rfl⟩
  have hne : ¬ (dataFile ++ strL ".tmp" = dataFile) := by
    intro h
    have hlen := congrArg List.length h
    rw [List.length_append] at hlen
    have h4 : (strL ".tmp").length = 4 := rfl
    omega
  simp [isAtomicWriteTo, write_data_file_ops, hne]

/-- `os.environ.get` / `os.environ[...]` against a modelled environment. -/
def getenvQ (env : List (String × String)) (k : String) : Option String :=
  (env.find? (fun p => p.1 == k)).map (fun p => p.2)

/-- The batch slicing shared by both metadata modules:
`[repos[i*bs:(i+1)*bs] for i in range((len(repos)+bs-1)//bs)]`. -/
def mkBatches (repos : List String) (batchSize : Nat) : List (List String) :=
  (List.range ((repos.length + batchSize - 1) / batchSize)).map
    (fun i => (repos.drop (i * batchSize)).take batchSize)

/-- The head of `software_metadata.add_github_metadata` up to the request
loop: return immediately when the project queue is empty; otherwise read
`GITHUB_TOKEN` with `os.environ.get` — without any check, a missing token just
yields a `Bearer None` header — and plan the batches, each of which will be
POSTed.  `repos` stands for the queue's normalized repo identifiers (one per
queued project). -/
structure GithubRunPlan where
  skipped : Bool
  token : Option String
  batches : List (List String)
deriving DecidableEq

def add_github_metadata_plan (env : List (String × String)) (repos : List String)
    (batchSize : Nat) : GithubRunPlan :=
  if repos.isEmpty then ⟨true, none, []⟩
  else ⟨false, getenvQ env "GITHUB_TOKEN", mkBatches repos batchSize⟩

/-- `github_metadata.add_github_metadata` instead reads
`os.environ['GITHUB_TOKEN']`: when the variable is unset this raises
`KeyError` and the run fails. -/
def github_metadata_token (env : List (String × String)) : Except String String :=
  match getenvQ env "GITHUB_TOKEN" with
  | some t => .ok t
  | none => .error "KeyError: GITHUB_TOKEN"

/-- C8 counterexample: with `GITHUB_TOKEN` unset and a non-empty queue,
`software_metadata.add_github_metadata` does not skip the provider — it plans
(and would POST) the batches with a `Bearer None` header — and
`github_metadata.add_github_metadata` raises `KeyError`, failing the run. -/
theorem C8_counterexample_missing_token_not_skipped :
    add_github_metadata_plan [] ["foo/bar"] 30 = ⟨false, none, [["foo/bar"]]⟩
    ∧ github_metadata_token [] = .error "KeyError: GITHUB_TOKEN" := by
  constructor
  · decide
  · rfl

/-- C8 (amended): neither module checks the provider token.
`software_metadata` reads it with `os.environ.get` and proceeds to issue every
planned batch request regardless (a missing token merely produces an invalid
`Authorization` header whose failures surface per batch);
`github_metadata` subscripts the environment and raises `KeyError`, failing
the run, when the token is unset. -/
theorem C8_missing_token_amended (env : List (String × String)) (repos : List String)
    (batchSize : Nat) (hne : ¬ repos.isEmpty = true) (hbs : 0 < batchSize) :
    (add_github_metadata_plan env repos batchSize).skipped = false
    ∧ (add_github_metadata_plan env repos batchSize).token = getenvQ env "GITHUB_TOKEN"
    ∧ (add_github_metadata_plan env repos batchSize).batches ≠ []
    ∧ (getenvQ env "GITHUB_TOKEN" = none →
        github_metadata_token env = .error "KeyError: GITHUB_TOKEN") := by
  refine ⟨?_, ?_, ?_, ?_⟩
  · rw [add_github_metadata_plan, if_neg hne]
  · rw [add_github_metadata_plan, if_neg hne]
  · rw [add_github_metadata_plan, if_neg hne]
    have hlen : 0 < repos.length := by
      cases repos with
      | nil => exact absurd rfl hne
      | cons a as => simp
    have hbatches : 0 < ((repos.length + batchSize - 1) / batchSize) :=
      (Nat.one_le_div_iff hbs).mpr (by omega)
    intro hcontra
    have := congrArg List.length hcontra
    simp only [mkBatches, List.length_map, List.length_range, List.length_nil] at this
    omega
  · intro h
    rw [github_metadata_token, h]

/-- Witness for C8 (amended) with an environment lacking `GITHUB_TOKEN` and a
one-project queue. -/
theorem C8_missing_token_amended_witness :
    (¬ (["foo/bar"] : List String).isEmpty = true) ∧ (0 < 30)
    ∧ ((add_github_metadata_plan [("HOME", "/root")] ["foo/bar"] 30).skipped = false
      ∧ (add_github_metadata_plan [("HOME", "/root")] ["foo/bar"] 30).token
          = getenvQ [("HOME", "/root")] "GITHUB_TOKEN"
      ∧ (add_github_metadata_plan [("HOME", "/root")] ["foo/bar"] 30).batches ≠ []
      ∧ (getenvQ [("HOME", "/root")] "GITHUB_TOKEN" = none →
          github_metadata_token [("HOME", "/root")] = .error "KeyError: GITHUB_TOKEN")) :=
  ⟨by decide, by decide,
   C8_missing_token_amended [("HOME", "/root")] ["foo/bar"] 30 (by decide) (by decide)⟩
